import Mathlib

/-!
Verification of the QR-code generator (`app.py`): a shallow embedding of the
color normalizer `rgba_to_rgb` and of the generation entrypoint
`generate_qr_code`, together with models of the external `qrcode` / PIL
library calls the entrypoint makes (QR encoding, rasterization, logo resize
and paste, standard decoding).  Python exceptions are embedded as `Except`
errors; Python strings are embedded as `List Char`; Python floats as exact
rationals.
-/

namespace QrApp

/-- An RGB pixel as the rasterizer handles it (Python ints, unclamped). -/
structure Rgb where
  r : Int
  g : Int
  b : Int
deriving DecidableEq

/-- An RGBA pixel of a logo image. -/
structure Rgba where
  r : Int
  g : Int
  b : Int
  a : Int
deriving DecidableEq

/-- A 3-channel raster image: dimensions plus a pixel function. -/
structure RasterImage where
  width : Nat
  height : Nat
  px : Nat → Nat → Rgb

/-- A 4-channel (RGB + alpha) image, the representation a logo is converted to. -/
structure RgbaImage where
  width : Nat
  height : Nat
  px : Nat → Nat → Rgba

/-- The Python exceptions the embedded code can raise: `ValueError` (from
`float()` parsing or tuple unpacking, and from an unresolvable color),
`qrcode.exceptions.DataOverflowError` (the spec's `EncodingCapacityExceeded`
condition), and an unreadable logo image (the spec's `InvalidLogoImage`). -/
inductive PyErr where
  | valueError
  | dataOverflow
  | invalidImage
deriving DecidableEq

/-- The value `rgba_to_rgb` returns: either a string passed through
(hex or fallback) or an (R,G,B) integer triple. -/
inductive ColorVal where
  | str (s : List Char)
  | rgb (r g b : Int)
deriving DecidableEq

/-- An uploaded logo file: its `.name` and its decoded RGBA content
(`none` when `PIL.Image.open` would fail on it). -/
structure LogoFile where
  name : List Char
  image : Option RgbaImage

/-- The filesystem effects of one generation call: logo files opened and
files written (path together with the image written there). -/
structure Effects where
  opens : List (List Char)
  writes : List (List Char × RasterImage)

/-- The ASCII whitespace characters Python's `str.strip()` removes. -/
def isPySpace (c : Char) : Bool :=
  c == ' ' || c == '\t' || c == '\n' || c == '\r' || c == '\x0b' || c == '\x0c'

/-- Embedding of Python `str.strip()`: drop whitespace from both ends. -/
def stripChars (cs : List Char) : List Char :=
  ((cs.dropWhile isPySpace).reverse.dropWhile isPySpace).reverse

/-- Embedding of Python `str.split(",")`: split at every comma, never
collapsing, so the result always has (number of commas + 1) parts. -/
def splitOnComma : List Char → List (List Char)
  | [] => [[]]
  | c :: rest =>
    if c = ',' then [] :: splitOnComma rest
    else
      match splitOnComma rest with
      | [] => [[c]]
      | s :: ss => (c :: s) :: ss

/-- Numeric value of a digit string (most significant digit first). -/
def digitsVal (cs : List Char) : Nat :=
  cs.foldl (fun a c => 10 * a + (c.toNat - 48)) 0

/-- Multiply a rational by an integer power of ten (for float exponents). -/
def timesPow10 (q : Rat) (e : Int) : Rat :=
  if 0 ≤ e then mkRat (q.num * ((10 ^ e.toNat : Nat) : Int)) q.den
  else mkRat q.num (q.den * 10 ^ (-e).toNat)

/-- Exponent digits of a float literal: optional sign, then digits. -/
def parseExpNum (base : Rat) (cs : List Char) : Option Rat :=
  match cs with
  | '+' :: r => if r ≠ [] ∧ r.all Char.isDigit then some (timesPow10 base (digitsVal r)) else none
  | '-' :: r => if r ≠ [] ∧ r.all Char.isDigit then some (timesPow10 base (-(digitsVal r : Int))) else none
  | r => if r ≠ [] ∧ r.all Char.isDigit then some (timesPow10 base (digitsVal r)) else none

/-- After the mantissa of a float literal: end of string, or `e`/`E` exponent. -/
def parseExpPart (base : Rat) (cs : List Char) : Option Rat :=
  match cs with
  | [] => some base
  | 'e' :: rest => parseExpNum base rest
  | 'E' :: rest => parseExpNum base rest
  | _ => none

/-- Unsigned float literal: digits, optional fraction, optional exponent. -/
def parseUFloat (cs : List Char) : Option Rat :=
  let ds := cs.takeWhile Char.isDigit
  let rest := cs.dropWhile Char.isDigit
  match rest with
  | '.' :: rest2 =>
    let fs := rest2.takeWhile Char.isDigit
    let rest3 := rest2.dropWhile Char.isDigit
    if ds = [] ∧ fs = [] then none
    else parseExpPart (mkRat (digitsVal ds * 10 ^ fs.length + digitsVal fs) (10 ^ fs.length)) rest3
  | _ => if ds = [] then none else parseExpPart (digitsVal ds) rest

/-- Embedding of Python's `float(str)` builtin on decimal literals: strips
whitespace, then optional sign, digits, fraction, exponent; the exact
rational value is kept (binary rounding, `inf`/`nan` and digit-group
underscores are outside the model).  Returns `none` where `float()` raises
`ValueError`. -/
def pyFloat (cs : List Char) : Option Rat :=
  match stripChars cs with
  | '+' :: r => parseUFloat r
  | '-' :: r => (parseUFloat r).map (fun q => -q)
  | t => parseUFloat t

/-- Embedding of Python's `int(float)` builtin: truncation toward zero. -/
def pyInt (q : Rat) : Int :=
  if 0 ≤ q.num then (q.num.toNat / q.den : Nat)
  else -((((-q.num).toNat / q.den : Nat) : Int))

/-- `float()` as the exception-raising operation used inside `rgba_to_rgb`. -/
def pyFloatE (cs : List Char) : Except PyErr Rat :=
  match pyFloat cs with
  | some v => .ok v
  | none => .error .valueError

/-- Left-to-right effectful map, the embedding of a Python list
comprehension whose element expression may raise. -/
def mapExcept (f : α → Except PyErr β) : List α → Except PyErr (List β)
  | [] => .ok []
  | a :: as =>
    match f a with
    | .error e => .error e
    | .ok b =>
      match mapExcept f as with
      | .error e => .error e
      | .ok bs => .ok (b :: bs)

/-- Embedding of `rgba_to_rgb` from `app.py`: hex strings pass through,
`rgba(...)` strings are sliced (`color_str[5:-1]`), split on commas, the
first three parts parsed as floats and truncated to ints (`ValueError`
propagating from `float()` or from unpacking fewer than three parts), and
anything else passes through unchanged. -/
def rgba_to_rgb (color_str : List Char) : Except PyErr ColorVal :=
  if ("#".data).isPrefixOf color_str then .ok (.str color_str)
  else if ("rgba".data).isPrefixOf color_str then
    match mapExcept (fun p => (pyFloatE (stripChars p)).map pyInt)
        ((splitOnComma ((color_str.drop 5).dropLast)).take 3) with
    | .error e => .error e
    | .ok [r, g, b] => .ok (.rgb r g b)
    | .ok _ => .error .valueError
  else .ok (.str color_str)

/-- The character list of an `rgba(p1,p2,p3,p4)` color string built from its
four components. -/
def rgbaStr (p1 p2 p3 p4 : List Char) : List Char :=
  'r' :: 'g' :: 'b' :: 'a' :: '(' :: ((p1 ++ ',' :: (p2 ++ ',' :: (p3 ++ ',' :: p4))) ++ [')'])

/-- Value of a hex digit, `none` on a non-hex character. -/
def hexVal (c : Char) : Option Nat :=
  if '0' ≤ c ∧ c ≤ '9' then some (c.toNat - 48)
  else if 'a' ≤ c ∧ c ≤ 'f' then some (c.toNat - 87)
  else if 'A' ≤ c ∧ c ≤ 'F' then some (c.toNat - 55)
  else none

/-- Modelled from the spec: the `#RRGGBB` hex color shape of the data model
(the exact PIL `ImageColor` grammar is not in the repository). -/
def hexToRgb (s : List Char) : Option Rgb :=
  match s with
  | ['#', r1, r2, g1, g2, b1, b2] =>
    match hexVal r1, hexVal r2, hexVal g1, hexVal g2, hexVal b1, hexVal b2 with
    | some a, some b, some c, some d, some e, some f =>
      some ⟨(16 * a + b : Nat), (16 * c + d : Nat), (16 * e + f : Nat)⟩
    | _, _, _, _, _, _ => none
  | _ => none

/-- Modelled from the spec: color resolution performed inside the library's
`make_image` (not in the repository): an RGB triple is used as supplied, a
hex string is decoded, any other string raises `ValueError`. -/
def resolveColor : ColorVal → Except PyErr Rgb
  | .rgb r g b => .ok ⟨r, g, b⟩
  | .str s =>
    match hexToRgb s with
    | some c => .ok c
    | none => .error .valueError

/-- Module box size: `box_size=10` in `app.py`. -/
def box_size : Nat := 10

/-- Quiet-zone border in modules: `border=4` in `app.py`. -/
def border : Nat := 4

/-- A QR symbol: a square grid of boolean modules. -/
structure QrMatrix where
  side : Nat
  module : Nat → Nat → Bool

/-- Side length of a QR symbol of a given version. -/
def qrSide (v : Nat) : Nat := 17 + 4 * v

/-- Modelled from the spec: per-version payload capacity (in characters) of
the `qrcode` library at the fixed highest error-correction tier; the library
is not in the repository.  The table is the standard byte-mode EC-H
capacity table, matching the spec's "~a few thousand alphanumeric
characters" at version 40. -/
def capH (v : Nat) : Nat :=
  match v with
  | 1 => 7 | 2 => 14 | 3 => 24 | 4 => 34 | 5 => 44
  | 6 => 58 | 7 => 64 | 8 => 84 | 9 => 98 | 10 => 119
  | 11 => 137 | 12 => 155 | 13 => 177 | 14 => 194 | 15 => 220
  | 16 => 250 | 17 => 280 | 18 => 310 | 19 => 338 | 20 => 382
  | 21 => 403 | 22 => 439 | 23 => 461 | 24 => 511 | 25 => 535
  | 26 => 593 | 27 => 625 | 28 => 658 | 29 => 698 | 30 => 742
  | 31 => 790 | 32 => 842 | 33 => 898 | 34 => 958 | 35 => 983
  | 36 => 1051 | 37 => 1093 | 38 => 1139 | 39 => 1219 | 40 => 1273
  | _ => 0

/-- Maximum capacity of the largest symbol (version 40) at tier H. -/
def maxCapacityH : Nat := capH 40

/-- Smallest version 1..40 whose capacity fits the payload length — the
`fit=True` version selection of `qr.make`. -/
def qrBestVersion (len : Nat) : Option Nat :=
  ((List.range 40).map (· + 1)).find? (fun v => len ≤ capH v)

/-- LSB-first bits of `n`, `w` bits wide. -/
def natBits : Nat → Nat → List Bool
  | 0, _ => []
  | w + 1, n => (n % 2 = 1) :: natBits w (n / 2)

/-- Value of an LSB-first bit list. -/
def bitsToNat : List Bool → Nat
  | [] => 0
  | b :: bs => (if b then 1 else 0) + 2 * bitsToNat bs

/-- Bits of one payload character (21 bits cover every Unicode scalar). -/
def charBits (c : Char) : List Bool := natBits 21 c.toNat

/-- Bits of the whole payload, character by character. -/
def payloadBits (cs : List Char) : List Bool := (cs.map charBits).flatten

/-- Modelled from the spec: the bit stream the black-box encoder stores in
the symbol — a 16-bit length field followed by the payload characters.  The
spec treats the library's error-correction-code math as a standard,
already-correct black box; the model keeps only an injective payload-to-bits
map together with its exact inverse. -/
def encodeBits (s : String) : List Bool :=
  natBits 16 s.data.length ++ payloadBits s.data

/-- Modelled from the spec: the module matrix of the encoded payload at a
given version, modules read row-major from the encoded bit stream. -/
def qrMatrixFor (s : String) (v : Nat) : QrMatrix :=
  ⟨qrSide v, fun r c => (encodeBits s).getD (r * qrSide v + c) false⟩

/-- Modelled from the spec: `qr.add_data(text)` + `qr.make(fit=True)` —
pick the smallest fitting version or raise `DataOverflowError` (the spec's
`EncodingCapacityExceeded`). -/
def qrMake (s : String) : Except PyErr QrMatrix :=
  match qrBestVersion s.length with
  | some v => .ok (qrMatrixFor s v)
  | none => .error .dataOverflow

/-- Modelled from the spec: `qr.make_image(...).convert("RGB")` — each
module becomes a `box_size × box_size` block of the fill color, everything
else (the `border`-module quiet zone) the background color; dimensions are
`(side + 2*border) * box_size`. -/
def rasterize (m : QrMatrix) (fill back : Rgb) : RasterImage :=
  ⟨(m.side + 2 * border) * box_size, (m.side + 2 * border) * box_size,
   fun x y =>
     let c := x / box_size
     let r := y / box_size
     if border ≤ c ∧ c < border + m.side ∧ border ≤ r ∧ r < border + m.side
        ∧ m.module (r - border) (c - border) = true
     then fill else back⟩

/-- Modelled from the spec: the sampling stage of a standard QR decoder —
one sample per module cell, a module read as set when its pixel differs
from the quiet-zone (background) pixel at the image corner. -/
def scanMatrix (img : RasterImage) : QrMatrix :=
  ⟨img.width / box_size - 2 * border,
   fun r c => decide (img.px ((border + c) * box_size) ((border + r) * box_size) ≠ img.px 0 0)⟩

/-- First `n` modules of a matrix, row-major. -/
def matrixBits (m : QrMatrix) (n : Nat) : List Bool :=
  (List.range n).map (fun i => m.module (i / m.side) (i % m.side))

/-- Read `n` characters, 21 bits each, from a bit stream. -/
def decodePayload : Nat → List Bool → List Char
  | 0, _ => []
  | n + 1, bs => Char.ofNat (bitsToNat (bs.take 21)) :: decodePayload n (bs.drop 21)

/-- Modelled from the spec: the payload-recovery stage of a standard QR
decoder — read the 16-bit length field, then that many characters. -/
def matrixDecode (m : QrMatrix) : String :=
  let len := bitsToNat (matrixBits m 16)
  ⟨decodePayload len ((matrixBits m (16 + 21 * len)).drop 16)⟩

/-- A standard QR decoder applied to a raster image: sample the modules,
then decode the payload. -/
def qrDecodeImage (img : RasterImage) : String :=
  matrixDecode (scanMatrix img)

/-- Modelled from the spec: PIL `logo.resize(logo_size)` — a
non-aspect-preserving direct stretch to the requested dimensions; the
resampling kernel is abstracted (nearest sample); only the target
dimensions matter to the verified claims. -/
def resizeRgba (img : RgbaImage) (w h : Nat) : RgbaImage :=
  ⟨w, h, fun x y => img.px (x * img.width / w) (y * img.height / h)⟩

/-- One blended channel at partial alpha. -/
def mixC (d s a : Int) : Int := (d * (255 - a) + s * a) / 255

/-- Modelled from the spec: per-pixel alpha compositing of PIL
`Image.paste` with an RGBA mask — fully transparent keeps the base pixel,
fully opaque takes the logo pixel, partial alpha blends. -/
def blendPx (dst : Rgb) (src : Rgba) : Rgb :=
  if src.a ≤ 0 then dst
  else if 255 ≤ src.a then ⟨src.r, src.g, src.b⟩
  else ⟨mixC dst.r src.r src.a, mixC dst.g src.g src.a, mixC dst.b src.b src.a⟩

/-- Modelled from the spec: `img.paste(logo, pos, mask=logo)` — pixels
inside the pasted rectangle are blended under the logo's alpha channel,
every other pixel of the base image is untouched. -/
def pasteRgba (base : RasterImage) (logo : RgbaImage) (pos : Nat × Nat) : RasterImage :=
  ⟨base.width, base.height,
   fun x y =>
     if pos.1 ≤ x ∧ x < pos.1 + logo.width ∧ pos.2 ≤ y ∧ y < pos.2 + logo.height then
       blendPx (base.px x y) (logo.px (x - pos.1) (y - pos.2))
     else base.px x y⟩

/-- The temporary output path `f"/tmp/qr_code_{uuid.uuid4().hex}.png"`. -/
def tmpPath (uuidHex : List Char) : List Char :=
  "/tmp/qr_code_".data ++ uuidHex ++ ".png".data

/-- Embedding of `generate_qr_code` from `app.py`: empty payload returns
`(None, None)` at once; otherwise both colors are normalized, the payload
encoded (DataOverflow surfacing), the symbol rasterized with the resolved
colors, the optional logo opened, stretched to a quarter of each image
dimension and pasted centered with its alpha as mask, and the result saved
to a uuid-named file.  The random uuid hex is a parameter; filesystem
effects are returned alongside the result. -/
def generate_qr_code (text : String) (fill_color back_color : List Char)
    (logo_file : Option LogoFile) (uuidHex : List Char) :
    Except PyErr ((Option RasterImage × Option (List Char)) × Effects) :=
  if text = "" then .ok ((none, none), ⟨[], []⟩)
  else
    match rgba_to_rgb fill_color with
    | .error e => .error e
    | .ok fill =>
    match rgba_to_rgb back_color with
    | .error e => .error e
    | .ok back =>
    match qrMake text with
    | .error e => .error e
    | .ok m =>
    match resolveColor fill with
    | .error e => .error e
    | .ok f =>
    match resolveColor back with
    | .error e => .error e
    | .ok b =>
    let img0 := rasterize m f b
    match logo_file with
    | none =>
      let path := tmpPath uuidHex
      .ok ((some img0, some path), ⟨[], [(path, img0)]⟩)
    | some lf =>
      match lf.image with
      | none => .error .invalidImage
      | some li =>
        let factor := 4
        let logo_size := (img0.width / factor, img0.height / factor)
        let logo := resizeRgba li logo_size.1 logo_size.2
        let pos := ((img0.width - logo_size.1) / 2, (img0.height - logo_size.2) / 2)
        let img1 := pasteRgba img0 logo pos
        let path := tmpPath uuidHex
        .ok ((some img1, some path), ⟨[lf.name], [(path, img1)]⟩)

/-! Auxiliary lemmas about the bit-stream model. -/

theorem natBits_length : ∀ (w n : Nat), (natBits w n).length = w
  | 0, _ => rfl
  | w + 1, n => by simp [natBits, natBits_length w (n / 2)]

theorem bitsToNat_natBits : ∀ (w n : Nat), n < 2 ^ w → bitsToNat (natBits w n) = n
  | 0, n, h => by
    simp only [natBits, bitsToNat]
    omega
  | w + 1, n, h => by
    have hdiv : n / 2 < 2 ^ w := by
      apply Nat.div_lt_of_lt_mul
      rw [pow_succ] at h
      omega
    simp only [natBits, bitsToNat, bitsToNat_natBits w (n / 2) hdiv]
    rcases Nat.mod_two_eq_zero_or_one n with h2 | h2 <;> simp [h2] <;> omega

theorem charBits_length (c : Char) : (charBits c).length = 21 := natBits_length 21 _

theorem char_toNat_lt (c : Char) : c.toNat < 2 ^ 21 := by
  have h : c.val.toNat < 0xd800 ∨ (0xdfff < c.val.toNat ∧ c.val.toNat < 0x110000) := c.valid
  have : (2 : Nat) ^ 21 = 2097152 := by norm_num
  show c.val.toNat < 2 ^ 21
  omega

theorem bitsToNat_charBits (c : Char) : Char.ofNat (bitsToNat (charBits c)) = c := by
  rw [charBits, bitsToNat_natBits 21 c.toNat (char_toNat_lt c), Char.ofNat_toNat]

theorem payloadBits_cons (c : Char) (cs : List Char) :
    payloadBits (c :: cs) = charBits c ++ payloadBits cs := rfl

theorem payloadBits_length (cs : List Char) : (payloadBits cs).length = 21 * cs.length := by
  induction cs with
  | nil => rfl
  | cons c cs ih =>
    simp [payloadBits_cons, charBits_length, ih]
    omega

theorem decodePayload_payloadBits (cs : List Char) (tail : List Bool) :
    decodePayload cs.length (payloadBits cs ++ tail) = cs := by
  induction cs with
  | nil => rfl
  | cons c cs ih =>
    show decodePayload (cs.length + 1) (payloadBits (c :: cs) ++ tail) = c :: cs
    rw [payloadBits_cons, List.append_assoc]
    show Char.ofNat (bitsToNat ((charBits c ++ (payloadBits cs ++ tail)).take 21)) ::
        decodePayload cs.length ((charBits c ++ (payloadBits cs ++ tail)).drop 21) = c :: cs
    rw [List.take_left' (charBits_length c), List.drop_left' (charBits_length c),
      bitsToNat_charBits, ih]

theorem encodeBits_length (s : String) : (encodeBits s).length = 16 + 21 * s.data.length := by
  simp [encodeBits, natBits_length, payloadBits_length]

theorem rangeMap_getD (l : List Bool) (n : Nat) (h : n ≤ l.length) :
    (List.range n).map (fun i => l.getD i false) = l.take n := by
  apply List.ext_getElem
  · simpa using h
  · intro i h1 h2
    simp only [List.getElem_map, List.getElem_range, List.getElem_take]
    rw [List.getD_eq_getElem]

/-! Auxiliary lemmas about Python `str.split(",")`. -/

theorem splitOnComma_no_comma (a : List Char) (h : ',' ∉ a) : splitOnComma a = [a] := by
  induction a with
  | nil => rfl
  | cons c cs ih =>
    have hc : ¬(c = ',') := fun hh => h (hh ▸ List.mem_cons_self c cs)
    have hcs : ',' ∉ cs := fun hm => h (List.mem_cons_of_mem c hm)
    simp only [splitOnComma, if_neg hc, ih hcs]

theorem splitOnComma_append (a b : List Char) (h : ',' ∉ a) :
    splitOnComma (a ++ ',' :: b) = a :: splitOnComma b := by
  induction a with
  | nil => simp [splitOnComma]
  | cons c cs ih =>
    have hc : ¬(c = ',') := fun hh => h (hh ▸ List.mem_cons_self c cs)
    have hcs : ',' ∉ cs := fun hm => h (List.mem_cons_of_mem c hm)
    simp only [List.cons_append, splitOnComma, if_neg hc, List.append_eq, ih hcs]

/-! Auxiliary lemmas about version selection and capacity. -/

theorem capH_mem_bounds : ∀ v ∈ (List.range 40).map (· + 1),
    capH v ≤ 1273 ∧ 16 + 21 * capH v ≤ qrSide v * qrSide v := by decide

theorem qrBestVersion_spec {len v : Nat} (h : qrBestVersion len = some v) :
    len ≤ capH v ∧ capH v ≤ 1273 ∧ 16 + 21 * capH v ≤ qrSide v * qrSide v := by
  have h1 := List.find?_some h
  have h2 := List.mem_of_find?_eq_some h
  have h3 := capH_mem_bounds v h2
  exact ⟨by simpa using h1, h3.1, h3.2⟩

theorem qrBestVersion_isSome {len : Nat} (h : len ≤ maxCapacityH) :
    ∃ v, qrBestVersion len = some v := by
  cases hq : qrBestVersion len with
  | some v => exact ⟨v, rfl⟩
  | none =>
    exfalso
    have h40 : (40 : Nat) ∈ (List.range 40).map (· + 1) := by decide
    have := List.find?_eq_none.mp hq 40 h40
    simp only [decide_eq_true_eq] at this
    exact this (by simpa [maxCapacityH, capH] using h)

theorem qrBestVersion_none {len : Nat} (h : maxCapacityH < len) :
    qrBestVersion len = none := by
  cases hq : qrBestVersion len with
  | none => rfl
  | some v =>
    exfalso
    have hs := qrBestVersion_spec hq
    have : maxCapacityH = 1273 := rfl
    omega

/-! Round trip: rasterizing a symbol and scanning it back recovers the payload. -/

theorem rasterize_sample (m : QrMatrix) (f b : Rgb) (r c : Nat)
    (hr : r < m.side) (hc : c < m.side) :
    (rasterize m f b).px ((border + c) * box_size) ((border + r) * box_size)
      = (if m.module r c then f else b) := by
  simp only [rasterize]
  rw [Nat.mul_div_cancel _ (by decide : 0 < box_size),
    Nat.mul_div_cancel _ (by decide : 0 < box_size)]
  simp [Nat.le_add_right, hr, hc, Nat.add_sub_cancel_left]

theorem rasterize_corner (m : QrMatrix) (f b : Rgb) :
    (rasterize m f b).px 0 0 = b := by
  simp [rasterize, border, box_size]

theorem scan_side (m : QrMatrix) (f b : Rgb) :
    (scanMatrix (rasterize m f b)).side = m.side := by
  simp only [scanMatrix, rasterize]
  rw [Nat.mul_div_cancel _ (by decide : 0 < box_size), Nat.add_sub_cancel]

theorem scan_module (m : QrMatrix) (f b : Rgb) (hfb : f ≠ b) (r c : Nat)
    (hr : r < m.side) (hc : c < m.side) :
    (scanMatrix (rasterize m f b)).module r c = m.module r c := by
  simp only [scanMatrix]
  rw [rasterize_sample m f b r c hr hc, rasterize_corner]
  cases h : m.module r c
  · simp
  · simp [hfb]

theorem matrixBits_scan (m : QrMatrix) (f b : Rgb) (hfb : f ≠ b) (n : Nat)
    (hn : n ≤ m.side * m.side) :
    matrixBits (scanMatrix (rasterize m f b)) n = matrixBits m n := by
  simp only [matrixBits, scan_side]
  apply List.map_congr_left
  intro i hi
  have hin : i < n := List.mem_range.mp hi
  have hpos : 0 < m.side := by
    rcases Nat.eq_zero_or_pos m.side with h0 | h0
    · rw [h0] at hn; omega
    · exact h0
  have h1 : i / m.side < m.side := Nat.div_lt_of_lt_mul (by omega)
  have h2 : i % m.side < m.side := Nat.mod_lt _ hpos
  exact scan_module m f b hfb _ _ h1 h2

theorem matrixBits_qrMatrixFor (s : String) (v : Nat) (n : Nat)
    (hn : n ≤ (encodeBits s).length) :
    matrixBits (qrMatrixFor s v) n = (encodeBits s).take n := by
  simp only [matrixBits, qrMatrixFor]
  rw [← rangeMap_getD (encodeBits s) n hn]
  apply List.map_congr_left
  intro i _
  congr 1
  rw [Nat.mul_comm (i / qrSide v) (qrSide v)]
  exact Nat.div_add_mod i (qrSide v)

theorem matrixDecode_of_bits (M : QrMatrix) (s : String) (v : Nat)
    (hv : qrBestVersion s.length = some v)
    (hbits : ∀ n, n ≤ qrSide v * qrSide v → matrixBits M n = matrixBits (qrMatrixFor s v) n) :
    matrixDecode M = s := by
  obtain ⟨hcap, hle, hfit⟩ := qrBestVersion_spec hv
  have hlen : s.data.length ≤ capH v := hcap
  have hblen : (encodeBits s).length = 16 + 21 * s.data.length := encodeBits_length s
  have hfit2 : 16 + 21 * s.data.length ≤ qrSide v * qrSide v := by omega
  have h16 : (16 : Nat) ≤ qrSide v * qrSide v := by omega
  have hb1 : matrixBits M 16 = natBits 16 s.data.length := by
    rw [hbits 16 h16, matrixBits_qrMatrixFor s v 16 (by omega), encodeBits]
    exact List.take_left' (natBits_length 16 _)
  have hlenval : bitsToNat (matrixBits M 16) = s.data.length := by
    have h2 : (2 : Nat) ^ 16 = 65536 := by norm_num
    rw [hb1]
    exact bitsToNat_natBits 16 _ (by omega)
  have hb2 : matrixBits M (16 + 21 * s.data.length) = encodeBits s := by
    rw [hbits _ hfit2, matrixBits_qrMatrixFor s v _ (by omega), ← hblen, List.take_length]
  simp only [matrixDecode]
  rw [hlenval, hb2, encodeBits, List.drop_left' (natBits_length 16 _)]
  have hdec := decodePayload_payloadBits s.data []
  rw [List.append_nil] at hdec
  rw [hdec]

theorem qrDecodeImage_rasterize (s : String) (v : Nat)
    (hv : qrBestVersion s.length = some v) (f b : Rgb) (hfb : f ≠ b) :
    qrDecodeImage (rasterize (qrMatrixFor s v) f b) = s := by
  show matrixDecode (scanMatrix (rasterize (qrMatrixFor s v) f b)) = s
  apply matrixDecode_of_bits _ s v hv
  intro n hn
  exact matrixBits_scan (qrMatrixFor s v) f b hfb n hn

/-! Unfolding lemmas for the generation entrypoint. -/

theorem generate_noLogo_eq (text : String) (fc bc u : List Char)
    (fill back : ColorVal) (f b : Rgb) (v : Nat)
    (hne : ¬(text = "")) (hfc : rgba_to_rgb fc = .ok fill) (hbc : rgba_to_rgb bc = .ok back)
    (hv : qrBestVersion text.length = some v)
    (hf : resolveColor fill = .ok f) (hb : resolveColor back = .ok b) :
    generate_qr_code text fc bc none u =
      .ok ((some (rasterize (qrMatrixFor text v) f b), some (tmpPath u)),
           ⟨[], [(tmpPath u, rasterize (qrMatrixFor text v) f b)]⟩) := by
  simp only [generate_qr_code, if_neg hne, hfc, hbc, qrMake, hv, hf, hb]

theorem generate_logo_eq (text : String) (fc bc u : List Char)
    (fill back : ColorVal) (f b : Rgb) (v : Nat) (lf : LogoFile) (li : RgbaImage)
    (hne : ¬(text = "")) (hfc : rgba_to_rgb fc = .ok fill) (hbc : rgba_to_rgb bc = .ok back)
    (hv : qrBestVersion text.length = some v)
    (hf : resolveColor fill = .ok f) (hb : resolveColor back = .ok b)
    (hli : lf.image = some li) :
    generate_qr_code text fc bc (some lf) u =
      (let img0 := rasterize (qrMatrixFor text v) f b
       let logo_size := (img0.width / 4, img0.height / 4)
       let logo := resizeRgba li logo_size.1 logo_size.2
       let pos := ((img0.width - logo_size.1) / 2, (img0.height - logo_size.2) / 2)
       let img1 := pasteRgba img0 logo pos
       .ok ((some img1, some (tmpPath u)), ⟨[lf.name], [(tmpPath u, img1)]⟩)) := by
  simp only [generate_qr_code, if_neg hne, hfc, hbc, qrMake, hv, hf, hb, hli]

/-! Lemmas about compositing. -/

theorem pasteRgba_px_in (base : RasterImage) (logo : RgbaImage) (pos : Nat × Nat)
    (x y : Nat) (hx : x < logo.width) (hy : y < logo.height) :
    (pasteRgba base logo pos).px (pos.1 + x) (pos.2 + y)
      = blendPx (base.px (pos.1 + x) (pos.2 + y)) (logo.px x y) := by
  simp only [pasteRgba]
  rw [if_pos ⟨Nat.le_add_right _ _, Nat.add_lt_add_left hx _,
    Nat.le_add_right _ _, Nat.add_lt_add_left hy _⟩]
  rw [Nat.add_sub_cancel_left, Nat.add_sub_cancel_left]

theorem pasteRgba_px_out (base : RasterImage) (logo : RgbaImage) (pos : Nat × Nat)
    (x y : Nat)
    (h : x < pos.1 ∨ pos.1 + logo.width ≤ x ∨ y < pos.2 ∨ pos.2 + logo.height ≤ y) :
    (pasteRgba base logo pos).px x y = base.px x y := by
  simp only [pasteRgba]
  rw [if_neg]
  rintro ⟨c1, c2, c3, c4⟩
  omega

/-! Reduction of `rgba_to_rgb` on a well-shaped rgba string with parseable
first three components. -/

theorem rgba_to_rgb_rgbaStr (p1 p2 p3 p4 : List Char) (v1 v2 v3 : Rat)
    (h1 : pyFloat (stripChars p1) = some v1) (h2 : pyFloat (stripChars p2) = some v2)
    (h3 : pyFloat (stripChars p3) = some v3)
    (hc1 : ',' ∉ p1) (hc2 : ',' ∉ p2) (hc3 : ',' ∉ p3) (hc4 : ',' ∉ p4) :
    rgba_to_rgb (rgbaStr p1 p2 p3 p4) = .ok (.rgb (pyInt v1) (pyInt v2) (pyInt v3)) := by
  have e1 : ("#".data).isPrefixOf (rgbaStr p1 p2 p3 p4) = false := rfl
  have e2 : ("rgba".data).isPrefixOf (rgbaStr p1 p2 p3 p4) = true := rfl
  have e3 : ((rgbaStr p1 p2 p3 p4).drop 5).dropLast
      = p1 ++ ',' :: (p2 ++ ',' :: (p3 ++ ',' :: p4)) := by
    show ((p1 ++ ',' :: (p2 ++ ',' :: (p3 ++ ',' :: p4))) ++ [')']).dropLast = _
    exact List.dropLast_concat
  have e4 : splitOnComma (p1 ++ ',' :: (p2 ++ ',' :: (p3 ++ ',' :: p4))) = [p1, p2, p3, p4] := by
    rw [splitOnComma_append _ _ hc1, splitOnComma_append _ _ hc2, splitOnComma_append _ _ hc3,
      splitOnComma_no_comma _ hc4]
  simp only [rgba_to_rgb, e1, e2, e3, e4, Bool.false_eq_true, if_false, if_true]
  simp only [List.take_succ_cons, List.take_zero, mapExcept, pyFloatE, h1, h2, h3, Except.map]

/-! The claims. -/

/-- C1: for every non-empty payload within the encoder's capacity, with
colors that normalize and resolve to distinct fill and background RGB
values, the image produced by generating a QR code with no logo decodes,
under the standard QR decoder model, to exactly the original payload. -/
theorem generate_noLogo_decodes (text : String) (fc bc u : List Char)
    (fill back : ColorVal) (f b : Rgb)
    (hne : ¬(text = "")) (hcap : text.length ≤ maxCapacityH)
    (hfc : rgba_to_rgb fc = .ok fill) (hbc : rgba_to_rgb bc = .ok back)
    (hf : resolveColor fill = .ok f) (hb : resolveColor back = .ok b)
    (hfb : f ≠ b) :
    ∃ img path eff,
      generate_qr_code text fc bc none u = .ok ((some img, some path), eff) ∧
      qrDecodeImage img = text := by
  obtain ⟨v, hv⟩ := qrBestVersion_isSome hcap
  exact ⟨_, _, _, generate_noLogo_eq text fc bc u fill back f b v hne hfc hbc hv hf hb,
    qrDecodeImage_rasterize text v hv f b hfb⟩

theorem generate_noLogo_decodes_witness :
    ∃ img path eff,
      generate_qr_code "ab" "#000000".data "#ffffff".data none "u1".data
        = .ok ((some img, some path), eff) ∧
      qrDecodeImage img = "ab" :=
  generate_noLogo_decodes "ab" "#000000".data "#ffffff".data "u1".data
    (.str "#000000".data) (.str "#ffffff".data) ⟨0, 0, 0⟩ ⟨255, 255, 255⟩
    (by decide) (by decide) rfl rfl rfl rfl (by decide)

/-- C2: for every non-empty payload within capacity (with colors that
normalize and resolve), the rasterized image is square with side length
(matrix_side + 2*border) * box_size, where box_size is 10 pixels and
border is 4 modules. -/
theorem generate_image_dimensions (text : String) (fc bc u : List Char)
    (fill back : ColorVal) (f b : Rgb)
    (hne : ¬(text = "")) (hcap : text.length ≤ maxCapacityH)
    (hfc : rgba_to_rgb fc = .ok fill) (hbc : rgba_to_rgb bc = .ok back)
    (hf : resolveColor fill = .ok f) (hb : resolveColor back = .ok b) :
    ∃ v img path eff,
      qrBestVersion text.length = some v ∧
      generate_qr_code text fc bc none u = .ok ((some img, some path), eff) ∧
      img.width = ((qrMatrixFor text v).side + 2 * border) * box_size ∧
      img.height = img.width ∧ box_size = 10 ∧ border = 4 := by
  obtain ⟨v, hv⟩ := qrBestVersion_isSome hcap
  exact ⟨v, _, _, _, hv,
    generate_noLogo_eq text fc bc u fill back f b v hne hfc hbc hv hf hb,
    rfl, rfl, rfl, rfl⟩

theorem generate_image_dimensions_witness :
    ∃ v img path eff,
      qrBestVersion ("hi" : String).length = some v ∧
      generate_qr_code "hi" "#000000".data "#ffffff".data none "u2".data
        = .ok ((some img, some path), eff) ∧
      img.width = ((qrMatrixFor "hi" v).side + 2 * border) * box_size ∧
      img.height = img.width ∧ box_size = 10 ∧ border = 4 :=
  generate_image_dimensions "hi" "#000000".data "#ffffff".data "u2".data
    (.str "#000000".data) (.str "#ffffff".data) ⟨0, 0, 0⟩ ⟨255, 255, 255⟩
    (by decide) (by decide) rfl rfl rfl rfl

/-- C3: a call with an empty payload returns the pair (None, None)
immediately: no error is raised and no file is written. -/
theorem generate_empty_payload (fc bc : List Char) (logo : Option LogoFile) (u : List Char) :
    generate_qr_code "" fc bc logo u = .ok ((none, none), ⟨[], []⟩) := by
  simp [generate_qr_code]

/-- C4: for every rgba(r,g,b,a) string whose four components are numeric
and in range [0,255], the normalizer returns the triple of the first three
components parsed as floats and truncated to integers, discarding alpha. -/
theorem rgba_to_rgb_numeric (p1 p2 p3 p4 : List Char) (v1 v2 v3 v4 : Rat)
    (h1 : pyFloat (stripChars p1) = some v1) (h2 : pyFloat (stripChars p2) = some v2)
    (h3 : pyFloat (stripChars p3) = some v3) (_h4 : pyFloat (stripChars p4) = some v4)
    (hc1 : ',' ∉ p1) (hc2 : ',' ∉ p2) (hc3 : ',' ∉ p3) (hc4 : ',' ∉ p4)
    (_hr1 : 0 ≤ v1 ∧ v1 ≤ 255) (_hr2 : 0 ≤ v2 ∧ v2 ≤ 255)
    (_hr3 : 0 ≤ v3 ∧ v3 ≤ 255) (_hr4 : 0 ≤ v4 ∧ v4 ≤ 255) :
    rgba_to_rgb (rgbaStr p1 p2 p3 p4) = .ok (.rgb (pyInt v1) (pyInt v2) (pyInt v3)) :=
  rgba_to_rgb_rgbaStr p1 p2 p3 p4 v1 v2 v3 h1 h2 h3 hc1 hc2 hc3 hc4

theorem rgba_to_rgb_numeric_witness :
    rgba_to_rgb (rgbaStr "255".data " 0".data "12.7".data "1".data)
      = .ok (.rgb (pyInt 255) (pyInt 0) (pyInt (mkRat 127 10))) :=
  rgba_to_rgb_numeric "255".data " 0".data "12.7".data "1".data
    255 0 (mkRat 127 10) 1 rfl rfl rfl rfl
    (by decide) (by decide) (by decide) (by decide)
    (by norm_num) (by norm_num) (by norm_num [mkRat]) (by norm_num)

/-- C5: a payload longer than the maximum symbol capacity at the fixed
highest error-correction tier makes the generation call fail with the
capacity-exceeded condition, a structured error kind distinguishable from
the other failure kinds. -/
theorem generate_capacity_exceeded (text : String) (fc bc u : List Char)
    (logo : Option LogoFile) (fill back : ColorVal)
    (hne : ¬(text = "")) (hfc : rgba_to_rgb fc = .ok fill) (hbc : rgba_to_rgb bc = .ok back)
    (hcap : maxCapacityH < text.length) :
    generate_qr_code text fc bc logo u = .error .dataOverflow ∧
    PyErr.dataOverflow ≠ PyErr.valueError ∧ PyErr.dataOverflow ≠ PyErr.invalidImage := by
  refine ⟨?_, by decide, by decide⟩
  simp only [generate_qr_code, if_neg hne, hfc, hbc, qrMake, qrBestVersion_none hcap]

theorem generate_capacity_exceeded_witness :
    generate_qr_code (String.mk (List.replicate 1274 'a'))
        "#000000".data "#ffffff".data none "u3".data = .error .dataOverflow ∧
    PyErr.dataOverflow ≠ PyErr.valueError ∧ PyErr.dataOverflow ≠ PyErr.invalidImage :=
  generate_capacity_exceeded (String.mk (List.replicate 1274 'a'))
    "#000000".data "#ffffff".data "u3".data none
    (.str "#000000".data) (.str "#ffffff".data)
    (by intro h
        have h2 := congrArg String.length h
        have h3 : (List.replicate 1274 'a').length = String.length "" := h2
        rw [List.length_replicate] at h3
        exact absurd h3 (by decide))
    rfl rfl
    (by show maxCapacityH < (List.replicate 1274 'a').length
        rw [List.length_replicate]
        decide)

/-- C6 (code evidence): on a malformed rgba string with too few components
the normalizer raises the plain `ValueError` coming from parsing/unpacking;
no structured invalid-color failure kind exists anywhere in the code. -/
theorem rgba_to_rgb_malformed_valueError :
    rgba_to_rgb "rgba(12,34)".data = .error .valueError := rfl

/-- C7: with a logo supplied (and every earlier step succeeding), the logo
is stretched to exactly 1/4 of the QR image's width and 1/4 of its height,
pasted at top-left position ((width - logo_width)/2, (height - logo_height)/2)
with integer floor division, and the logo's alpha channel acts as the paste
mask: fully transparent logo pixels leave the QR pixel, fully opaque ones
replace it. -/
theorem generate_logo_composite (text : String) (fc bc u : List Char)
    (fill back : ColorVal) (f b : Rgb) (v : Nat) (lf : LogoFile) (li : RgbaImage)
    (hne : ¬(text = "")) (hfc : rgba_to_rgb fc = .ok fill) (hbc : rgba_to_rgb bc = .ok back)
    (hv : qrBestVersion text.length = some v)
    (hf : resolveColor fill = .ok f) (hb : resolveColor back = .ok b)
    (hli : lf.image = some li) :
    ∃ path eff,
      let base := rasterize (qrMatrixFor text v) f b
      let logo := resizeRgba li (base.width / 4) (base.height / 4)
      let pos := ((base.width - base.width / 4) / 2, (base.height - base.height / 4) / 2)
      generate_qr_code text fc bc (some lf) u
          = .ok ((some (pasteRgba base logo pos), some path), eff)
        ∧ logo.width = base.width / 4 ∧ logo.height = base.height / 4
        ∧ (∀ x y, x < logo.width → y < logo.height → (logo.px x y).a = 0 →
            (pasteRgba base logo pos).px (pos.1 + x) (pos.2 + y)
              = base.px (pos.1 + x) (pos.2 + y))
        ∧ (∀ x y, x < logo.width → y < logo.height → (logo.px x y).a = 255 →
            (pasteRgba base logo pos).px (pos.1 + x) (pos.2 + y)
              = ⟨(logo.px x y).r, (logo.px x y).g, (logo.px x y).b⟩) := by
  have heq := generate_logo_eq text fc bc u fill back f b v lf li hne hfc hbc hv hf hb hli
  refine ⟨tmpPath u, _, heq, rfl, rfl, fun x y hx hy ha => ?_, fun x y hx hy ha => ?_⟩
  · rw [pasteRgba_px_in _ _ _ x y hx hy]
    simp [blendPx, ha]
  · rw [pasteRgba_px_in _ _ _ x y hx hy]
    simp [blendPx, ha]

theorem generate_logo_composite_witness :
    ∃ path eff,
      let base := rasterize (qrMatrixFor "a" 1) ⟨0, 0, 0⟩ ⟨255, 255, 255⟩
      let logo := resizeRgba ⟨2, 2, fun _ _ => ⟨10, 20, 30, 255⟩⟩ (base.width / 4) (base.height / 4)
      let pos := ((base.width - base.width / 4) / 2, (base.height - base.height / 4) / 2)
      generate_qr_code "a" "#000000".data "#ffffff".data
          (some ⟨"logo.png".data, some ⟨2, 2, fun _ _ => ⟨10, 20, 30, 255⟩⟩⟩) "u4".data
          = .ok ((some (pasteRgba base logo pos), some path), eff)
        ∧ logo.width = base.width / 4 ∧ logo.height = base.height / 4
        ∧ (∀ x y, x < logo.width → y < logo.height → (logo.px x y).a = 0 →
            (pasteRgba base logo pos).px (pos.1 + x) (pos.2 + y)
              = base.px (pos.1 + x) (pos.2 + y))
        ∧ (∀ x y, x < logo.width → y < logo.height → (logo.px x y).a = 255 →
            (pasteRgba base logo pos).px (pos.1 + x) (pos.2 + y)
              = ⟨(logo.px x y).r, (logo.px x y).g, (logo.px x y).b⟩) :=
  generate_logo_composite "a" "#000000".data "#ffffff".data "u4".data
    (.str "#000000".data) (.str "#ffffff".data) ⟨0, 0, 0⟩ ⟨255, 255, 255⟩ 1
    ⟨"logo.png".data, some ⟨2, 2, fun _ _ => ⟨10, 20, 30, 255⟩⟩⟩
    ⟨2, 2, fun _ _ => ⟨10, 20, 30, 255⟩⟩
    (by decide) rfl rfl rfl rfl rfl rfl

/-- C8: for every rgba(r,g,b,a) string whose first three components are
numeric, the normalizer returns the truncated integers with no range
validation or clamping: negative or >255 components come back as-is and
no error is raised. -/
theorem rgba_to_rgb_no_clamping (p1 p2 p3 p4 : List Char) (v1 v2 v3 : Rat)
    (h1 : pyFloat (stripChars p1) = some v1) (h2 : pyFloat (stripChars p2) = some v2)
    (h3 : pyFloat (stripChars p3) = some v3)
    (hc1 : ',' ∉ p1) (hc2 : ',' ∉ p2) (hc3 : ',' ∉ p3) (hc4 : ',' ∉ p4) :
    rgba_to_rgb (rgbaStr p1 p2 p3 p4) = .ok (.rgb (pyInt v1) (pyInt v2) (pyInt v3)) :=
  rgba_to_rgb_rgbaStr p1 p2 p3 p4 v1 v2 v3 h1 h2 h3 hc1 hc2 hc3 hc4

theorem rgba_to_rgb_no_clamping_witness :
    rgba_to_rgb (rgbaStr "300".data "-5.5".data "0".data "oops".data)
      = .ok (.rgb (pyInt 300) (pyInt (mkRat (-11) 2)) (pyInt 0)) :=
  rgba_to_rgb_no_clamping "300".data "-5.5".data "0".data "oops".data
    300 (mkRat (-11) 2) 0 rfl rfl rfl
    (by decide) (by decide) (by decide) (by decide)

/-- C9: the empty-payload check runs before everything else: with an empty
payload the call returns (None, None) even when a color string is malformed
(its normalization would raise), and the effect trace shows no logo opened
and no file written. -/
theorem generate_empty_skips_all (fc bc : List Char) (logo : Option LogoFile) (u : List Char)
    (e : PyErr) (_hbad : rgba_to_rgb fc = .error e) :
    generate_qr_code "" fc bc logo u = .ok ((none, none), ⟨[], []⟩) := by
  simp [generate_qr_code]

theorem generate_empty_skips_all_witness :
    generate_qr_code "" "rgba(".data "#ffffff".data
        (some ⟨"logo.png".data, none⟩) "u5".data = .ok ((none, none), ⟨[], []⟩) :=
  generate_empty_skips_all "rgba(".data "#ffffff".data
    (some ⟨"logo.png".data, none⟩) "u5".data .valueError rfl

/-- C10: with a logo supplied, every pixel outside the centered logo
rectangle equals the corresponding pixel of the rasterized QR image before
compositing. -/
theorem generate_logo_frame (text : String) (fc bc u : List Char)
    (fill back : ColorVal) (f b : Rgb) (v : Nat) (lf : LogoFile) (li : RgbaImage)
    (hne : ¬(text = "")) (hfc : rgba_to_rgb fc = .ok fill) (hbc : rgba_to_rgb bc = .ok back)
    (hv : qrBestVersion text.length = some v)
    (hf : resolveColor fill = .ok f) (hb : resolveColor back = .ok b)
    (hli : lf.image = some li) :
    ∃ img path eff,
      let base := rasterize (qrMatrixFor text v) f b
      let lw := base.width / 4
      let lh := base.height / 4
      let pos := ((base.width - lw) / 2, (base.height - lh) / 2)
      generate_qr_code text fc bc (some lf) u = .ok ((some img, some path), eff) ∧
      ∀ x y, (x < pos.1 ∨ pos.1 + lw ≤ x ∨ y < pos.2 ∨ pos.2 + lh ≤ y) →
        img.px x y = base.px x y := by
  have heq := generate_logo_eq text fc bc u fill back f b v lf li hne hfc hbc hv hf hb hli
  exact ⟨_, tmpPath u, _, heq, fun x y h => pasteRgba_px_out _ _ _ x y h⟩

theorem generate_logo_frame_witness :
    ∃ img path eff,
      let base := rasterize (qrMatrixFor "a" 1) ⟨0, 0, 0⟩ ⟨255, 255, 255⟩
      let lw := base.width / 4
      let lh := base.height / 4
      let pos := ((base.width - lw) / 2, (base.height - lh) / 2)
      generate_qr_code "a" "#000000".data "#ffffff".data
          (some ⟨"logo.png".data, some ⟨2, 2, fun _ _ => ⟨10, 20, 30, 128⟩⟩⟩) "u6".data
          = .ok ((some img, some path), eff) ∧
      ∀ x y, (x < pos.1 ∨ pos.1 + lw ≤ x ∨ y < pos.2 ∨ pos.2 + lh ≤ y) →
        img.px x y = base.px x y :=
  generate_logo_frame "a" "#000000".data "#ffffff".data "u6".data
    (.str "#000000".data) (.str "#ffffff".data) ⟨0, 0, 0⟩ ⟨255, 255, 255⟩ 1
    ⟨"logo.png".data, some ⟨2, 2, fun _ _ => ⟨10, 20, 30, 128⟩⟩⟩
    ⟨2, 2, fun _ _ => ⟨10, 20, 30, 128⟩⟩
    (by decide) rfl rfl rfl rfl rfl rfl

end QrApp
